import Mathlib

/-!
# Formal model of `pandas_flashcards.py`

A shallow embedding of the flashcard CLI trainer.  Strings are modelled as
lists of characters (`Str`), and the Python string operations used by the
program (`strip`, `lower`, `split`, `in`, `startswith`, `lstrip`) are
transcribed as executable Lean functions on `Str`.  Only the ASCII fragment
of Python's whitespace/case tables is modelled; every string the program
compares against is ASCII, so this does not affect any stated property.
-/

namespace PandasFlashcards

/-- Strings are modelled as lists of characters. -/
abbrev Str := List Char

/-- Convert a Lean string literal into the model's string type. -/
def chars (s : String) : Str := s.data

/-- Python's whitespace test (ASCII fragment), as used by `str.strip()`. -/
def pySpace (c : Char) : Bool :=
  c = ' ' || c = '\t' || c = '\n' || c = '\r' || c = '\x0b' || c = '\x0c'

/-- Python `s.strip()`: remove leading and trailing whitespace. -/
def pyStrip (s : Str) : Str :=
  ((s.dropWhile pySpace).reverse.dropWhile pySpace).reverse

/-- Python `s.lower()` (ASCII fragment). -/
def pyLower (s : Str) : Str := s.map Char.toLower

/-- Python `sub in s`: substring occurrence test. -/
def substrB (sub : Str) : Str → Bool
  | [] => sub.isEmpty
  | c :: rest => sub.isPrefixOf (c :: rest) || substrB sub rest

/-- Worker for Python `s.split(sep)`.  The first list argument is the current
field accumulated in reverse; a cut is made as soon as the accumulated field
ends with `sep` (this realises leftmost, non-overlapping matching). -/
def splitAcc (sep : Str) : Str → Str → List Str
  | acc, [] => [acc.reverse]
  | acc, c :: rest =>
    let acc2 := c :: acc
    if sep.reverse.isPrefixOf acc2 then
      (acc2.drop sep.length).reverse :: splitAcc sep [] rest
    else
      splitAcc sep acc2 rest

/-- Python `s.split(sep)` for a nonempty separator. -/
def splitOnL (sep : Str) (s : Str) : List Str :=
  if sep.isEmpty then [s] else splitAcc sep [] s

example : splitOnL (chars ":::") (chars "ab:::cd") = [chars "ab", chars "cd"] := by decide
example : splitOnL (chars ":::") (chars "ab") = [chars "ab"] := by decide
example : splitOnL (chars ":::") (chars ":::") = [[], []] := by decide
example : splitOnL (chars "aa") (chars "aaa") = [[], chars "a"] := by decide
example : substrB (chars ":::") (chars "ab:::cd") = true := by decide
example : substrB (chars ":::") (chars "ab::cd") = false := by decide
example : pyStrip (chars "  a b  ") = chars "a b" := by decide
example : pyLower (chars "Ab C") = chars "ab c" := by decide

/-- A flashcard record: `{"front": str, "back": str, "topics": List[str]}`. -/
structure Card where
  front : Str
  back : Str
  topics : List Str
deriving Repr, DecidableEq

/-- The field separator `":::"`. -/
def SEPARATOR : Str := [':', ':', ':']

/-- Which of the three `[WARN] Skipping line ...` messages was printed. -/
inductive WarnKind where
  | missingSeparator
  | notEnoughFields
  | emptyFrontBack
deriving Repr, DecidableEq

/-- A `[WARN] Skipping line {line_no}: ...` print, modelled structurally:
the 1-based line number interpolated into the message plus which of the
three fixed message texts was used. -/
structure Warning where
  lineNo : Nat
  kind : WarnKind
deriving Repr, DecidableEq

/-- The `seen`/`deduped` loop of `load_cards`: deduplicate, keeping the
first occurrence of each element.  `seen` models the Python set (as the
list of its insertions), `acc` the `deduped` list being built (reversed). -/
def dedupGo (seen : List Str) (acc : List Str) : List Str → List Str
  | [] => acc.reverse
  | t :: ts => if t ∈ seen then dedupGo seen acc ts else dedupGo (t :: seen) (t :: acc) ts

/-- Python truthiness of the `current_section` variable: `None` and the
empty string are falsy, any other string truthy. -/
def sectionTruthy : Option Str → Bool
  | none => false
  | some s => !s.isEmpty

/-- The trimmed fields of a card line:
`parts = [part.strip() for part in raw.split(SEPARATOR)]`. -/
def lineParts (raw : Str) : List Str := (splitOnL SEPARATOR raw).map pyStrip

/-- The card's third trimmed field — the comma-separated topic override
string — or empty when absent: `parts[2] if len(parts) >= 3 else ""`. -/
def thirdField (raw : Str) : Str :=
  if (lineParts raw).length ≥ 3 then (lineParts raw).getD 2 [] else []

/-- `[t.strip().lower() for t in s.split(",") if t.strip()]` — the
normalization applied both to a card's third field and to the topic request
typed by the user. -/
def commaEntries (s : Str) : List Str :=
  (splitOnL [','] s).filterMap (fun t =>
    let ts := pyStrip t
    if ts.isEmpty then none else some (pyLower ts))

/-- The topic computation of `load_cards` for one accepted card line: the
section-derived topic first (guarded by Python truthiness of
`current_section`), then the comma-split entries of `topic_str`, each
stripped and lowercased with empties skipped; the result deduplicated
(first occurrence kept) when nonempty. -/
def cardTopics (current_section : Option Str) (topic_str : Str) : List Str :=
  let topics :=
    (if sectionTruthy current_section then
      [pyLower (current_section.getD [])]
    else [])
    ++ (if !topic_str.isEmpty then commaEntries topic_str else [])
  if topics.isEmpty then topics else dedupGo [] [] topics

/-- The body of the `for line_no, line` loop of `load_cards`, for one line
(with the trailing newline already removed, as by `line.rstrip("\n")`).
Returns the updated `current_section`, the warning printed (if any) and the
card appended (if any). -/
def processLine (current_section : Option Str) (line_no : Nat) (raw : Str) :
    Option Str × Option Warning × Option Card :=
  let stripped := pyStrip raw
  if stripped.isEmpty then
    (current_section, none, none)
  else if List.isPrefixOf ['#'] stripped then
    (some (pyStrip (stripped.dropWhile (fun c => c = '#'))), none, none)
  else if !substrB SEPARATOR raw then
    (current_section, some ⟨line_no, .missingSeparator⟩, none)
  else if (lineParts raw).length < 2 then
    (current_section, some ⟨line_no, .notEnoughFields⟩, none)
  else if ((lineParts raw).getD 0 []).isEmpty || ((lineParts raw).getD 1 []).isEmpty then
    (current_section, some ⟨line_no, .emptyFrontBack⟩, none)
  else
    (current_section, none,
      some ⟨(lineParts raw).getD 0 [], (lineParts raw).getD 1 [],
            cardTopics current_section (thirdField raw)⟩)

/-- The whole line loop of `load_cards`, threading `current_section` and the
1-based line number; returns the warnings printed and the cards collected,
each in order of occurrence. -/
def loadLoop (current_section : Option Str) (line_no : Nat) :
    List Str → List Warning × List Card
  | [] => ([], [])
  | raw :: rest =>
    let r := processLine current_section line_no raw
    let res := loadLoop r.1 (line_no + 1) rest
    (r.2.1.toList ++ res.1, r.2.2.toList ++ res.2)

/-- The two exceptions `load_cards` can raise: the `FileNotFoundError` for a
missing path and the `ValueError` for an empty result (the spec's
`DeckNotFound` and `EmptyDeck`). -/
inductive LoadError where
  | deckNotFound
  | emptyDeck
deriving Repr, DecidableEq

/-- `load_cards`: the file is modelled as the list of its lines and the
`Path.exists` check as a boolean input.  Returns the warnings printed
together with the loaded cards, or the raised error. -/
def load_cards (pathExists : Bool) (lines : List Str) :
    Except LoadError (List Warning × List Card) :=
  if !pathExists then
    .error .deckNotFound
  else
    let res := loadLoop none 1 lines
    if res.2.isEmpty then .error .emptyDeck else .ok res

example :
    load_cards true
      [chars "# Basics",
       chars "What is 2+2? ::: 4 ::: arithmetic",
       chars "What is pandas? ::: a data library"]
    = .ok ([],
      [⟨chars "What is 2+2?", chars "4", [chars "basics", chars "arithmetic"]⟩,
       ⟨chars "What is pandas?", chars "a data library", [chars "basics"]⟩]) := by
  rfl

example :
    loadLoop none 1 [chars "# #", chars "x:::y"]
    = ([], [⟨chars "x", chars "y", [chars "#"]⟩]) := by decide

/-- The branch-recording notices printed by `choose_topic_subset`
(display-only output — the sorted topic listing, the prompt text and the
joined topic echo — is presentation and not modelled). -/
inductive Notice where
  | noTopicsFound
  | usingAllCards
  | selectedTopics
  | noCardsMatched
  | usingMatching (n : Nat)
deriving Repr, DecidableEq

/-- `choose_topic_subset`: the single `input(...)` read is modelled as the
argument `rawInput`.  The Python sets (`topic_set`, `selected_set`) are
modelled as insertion-ordered duplicate-free lists; only membership and
emptiness of them are ever used.  Returns the notices printed and the card
list used for the session. -/
def choose_topic_subset (cards : List Card) (rawInput : Str) :
    List Notice × List Card :=
  let topic_set := dedupGo [] [] ((cards.map Card.topics).flatten)
  if topic_set.isEmpty then
    ([.noTopicsFound], cards)
  else
    let raw := pyStrip rawInput
    if raw.isEmpty then
      ([.usingAllCards], cards)
    else
      let selected := commaEntries raw
      let filtered := cards.filter (fun c =>
        !c.topics.isEmpty && c.topics.any (fun t => selected.contains t))
      if filtered.isEmpty then
        ([.selectedTopics, .noCardsMatched], cards)
      else
        ([.selectedTopics, .usingMatching filtered.length], filtered)

/-- The mutable state of `run_quiz`: the work queue `indices`, the loop
cursor `i`, the two counters, and the `quitting` flag. -/
structure QuizState where
  indices : List Nat
  i : Nat
  correct : Nat
  total_seen : Nat
  quitting : Bool
deriving Repr, DecidableEq

/-- The `while i < len(indices) and not quitting` loop guard. -/
def QuizState.active (st : QuizState) : Bool :=
  decide (st.i < st.indices.length) && !st.quitting

/-- `cmd = input(...).strip().lower()`. -/
def normCmd (c : Str) : Str := pyLower (pyStrip c)

/-- One iteration of the self-mark loop of `run_quiz`, consuming one grade
command `c`.  When the loop guard fails (`active = false`) no further input
is read, so the command leaves the state unchanged.  A terminal command
(`""`, `g`, `s`, `q`) `break`s the inner `while True`; the `break` is
followed by `i += 1`, so those branches also advance the cursor (`q`
included — the outer guard then stops on `quitting`).  `h` and unrecognized
tokens only reprompt: no state is touched. -/
def stepCmd (st : QuizState) (c : Str) : QuizState :=
  if st.active then
    let idx := st.indices.getD st.i 0
    let cmd := normCmd c
    if cmd.isEmpty then
      { st with total_seen := st.total_seen + 1, i := st.i + 1 }
    else if cmd = ['g'] then
      { st with correct := st.correct + 1, total_seen := st.total_seen + 1,
                i := st.i + 1 }
    else if cmd = ['s'] then
      { st with total_seen := st.total_seen + 1, indices := st.indices ++ [idx],
                i := st.i + 1 }
    else if cmd = ['q'] then
      { st with quitting := true, i := st.i + 1 }
    else
      st
  else st

/-- The loops of `run_quiz`, flattened over the stream of grade-prompt
inputs (the free-text answer prompt reads a separate line that affects no
state; it is not modelled).  In the program `indices` starts as
`random.shuffle` of `range(len(cards))`; the theorems quantify over an
arbitrary initial queue, covering every shuffle outcome. -/
def runQuiz (st : QuizState) (cmds : List Str) : QuizState :=
  cmds.foldl stepCmd st

/-- The state of `run_quiz` just before its main loop. -/
def initQuiz (perm : List Nat) : QuizState := ⟨perm, 0, 0, 0, false⟩

/-- The lines of the final `Session summary` block, modelled structurally.
The accuracy line carries the two counters from which Python formats
`100.0 * correct / total_seen` to one decimal; that float formatting is
presentation-only and not modelled. -/
inductive SummaryLine where
  | header
  | cardsSeen (n : Nat)
  | markedGotIt (n : Nat)
  | accuracy (correct total_seen : Nat)
  | footer
deriving Repr, DecidableEq

/-- Recognize the accuracy line of the summary. -/
def SummaryLine.isAccuracy : SummaryLine → Bool
  | .accuracy _ _ => true
  | _ => false

/-- The summary block printed when `run_quiz` ends; the accuracy line is
printed only under `if total_seen:`. -/
def summaryLines (st : QuizState) : List SummaryLine :=
  [.header, .cardsSeen st.total_seen, .markedGotIt st.correct]
  ++ (if st.total_seen ≠ 0 then [.accuracy st.correct st.total_seen] else [])
  ++ [.footer]

/-- A grade command is *terminal* when it ends an inner self-mark loop
iteration for good: one of `""`, `g`, `s`, `q` after normalization.  This
is claim C1's notion of terminal command. -/
def isTerminal (c : Str) : Bool :=
  let n := normCmd c
  n.isEmpty || n = ['g'] || n = ['s'] || n = ['q']

/-- Number of terminal commands consumed by the AWAIT_GRADE loop over a
run (commands arriving after the session is over are never read, hence not
counted). -/
def terminalConsumed : QuizState → List Str → Nat
  | _, [] => 0
  | st, c :: rest =>
    (if st.active && isTerminal c then 1 else 0) + terminalConsumed (stepCmd st c) rest

/-- A grade command that increments `total_seen`: one of `""`, `g`, `s`
after normalization — the terminal commands other than `q`. -/
def isCounted (c : Str) : Bool :=
  let n := normCmd c
  n.isEmpty || n = ['g'] || n = ['s']

/-- Number of consumed commands that increment `total_seen`. -/
def countedConsumed : QuizState → List Str → Nat
  | _, [] => 0
  | st, c :: rest =>
    (if st.active && isCounted c then 1 else 0) + countedConsumed (stepCmd st c) rest

/-- The card indices graded `s` over a run, in arrival order of the `s`
grades. -/
def struggledSeq : QuizState → List Str → List Nat
  | _, [] => []
  | st, c :: rest =>
    (if st.active && normCmd c = ['s'] then [st.indices.getD st.i 0] else [])
    ++ struggledSeq (stepCmd st c) rest

example :
    runQuiz (initQuiz [0]) [chars "s", chars "G "]
    = ⟨[0, 0], 2, 1, 2, false⟩ := by decide

example :
    (runQuiz (initQuiz [0, 1]) [chars "q"]).total_seen = 0 := by decide

/-! ## Spec-side characterizations (for the refinement claims C2 and C3) -/

/-- Claim C2's notion of a *syntactically valid card line*, written from the
claim's words: not blank, not a header, contains the separator, and has
non-empty front and back after trimming. -/
def specValidLine (raw : Str) : Bool :=
  let stripped := pyStrip raw
  !stripped.isEmpty
  && !(List.isPrefixOf ['#'] stripped)
  && substrB SEPARATOR raw
  && !((lineParts raw).getD 0 []).isEmpty
  && !((lineParts raw).getD 1 []).isEmpty

/-- Claim C2's *malformed line*: neither blank nor a header, yet not a
syntactically valid card line. -/
def specMalformedLine (raw : Str) : Bool :=
  let stripped := pyStrip raw
  !stripped.isEmpty
  && !(List.isPrefixOf ['#'] stripped)
  && !specValidLine raw

/-- The 1-based positions of the malformed lines, counting from line `n`. -/
def malformedIdxFrom (n : Nat) : List Str → List Nat
  | [] => []
  | raw :: rest =>
    (if specMalformedLine raw then [n] else []) ++ malformedIdxFrom (n + 1) rest

/-- Claim C3's topic computation, written from the spec's words: the
lowercased active section header (if a section is active — claim C10 spells
out that the empty string counts as no active section), followed by each
comma-separated entry of the card's third field, trimmed and lowercased
with empty entries skipped; deduplicated preserving first occurrence. -/
def specCardTopics (current_section : Option Str) (topic_str : Str) : List Str :=
  dedupGo [] []
    ((match current_section with
      | some s => if !s.isEmpty then [pyLower s] else []
      | none => [])
     ++ commaEntries topic_str)

/-! ## Helper lemmas about the session engine -/

theorem runQuiz_nil (st : QuizState) : runQuiz st [] = st := rfl

theorem runQuiz_cons (st : QuizState) (c : Str) (rest : List Str) :
    runQuiz st (c :: rest) = runQuiz (stepCmd st c) rest := rfl

theorem stepCmd_not_active {st : QuizState} (c : Str) (h : st.active = false) :
    stepCmd st c = st := by
  simp [stepCmd, h]

/-- Characterization of one active grading step by the normalized command. -/
theorem stepCmd_char (st : QuizState) (c : Str) (hact : st.active = true) :
    stepCmd st c =
      if (normCmd c).isEmpty then
        { st with total_seen := st.total_seen + 1, i := st.i + 1 }
      else if normCmd c = ['g'] then
        { st with correct := st.correct + 1, total_seen := st.total_seen + 1,
                  i := st.i + 1 }
      else if normCmd c = ['s'] then
        { st with total_seen := st.total_seen + 1,
                  indices := st.indices ++ [st.indices.getD st.i 0], i := st.i + 1 }
      else if normCmd c = ['q'] then
        { st with quitting := true, i := st.i + 1 }
      else st := by
  simp [stepCmd, hact]

theorem stepCmd_total_seen (st : QuizState) (c : Str) :
    (stepCmd st c).total_seen
      = st.total_seen + (if st.active && isCounted c then 1 else 0) := by
  cases ha : st.active
  · simp [stepCmd_not_active c ha, ha]
  · rw [stepCmd_char st c ha]
    simp only [ha, Bool.true_and]
    split_ifs with h1 h2 h3 h4 <;> simp_all [isCounted]

theorem stepCmd_indices (st : QuizState) (c : Str) :
    (stepCmd st c).indices
      = st.indices ++ (if st.active && normCmd c = ['s']
          then [st.indices.getD st.i 0] else []) := by
  cases ha : st.active
  · simp [stepCmd_not_active c ha, ha]
  · rw [stepCmd_char st c ha]
    simp only [ha, Bool.true_and]
    split_ifs with h1 h2 h3 h4 <;> simp_all

theorem stepCmd_correct_le (st : QuizState) (c : Str)
    (h : st.correct ≤ st.total_seen) :
    (stepCmd st c).correct ≤ (stepCmd st c).total_seen := by
  cases ha : st.active
  · simp [stepCmd_not_active c ha, h]
  · rw [stepCmd_char st c ha]
    split_ifs <;> (try simp) <;> omega

theorem stepCmd_i_adv (st : QuizState) (c : Str) :
    (stepCmd st c).i = st.i ∨ (stepCmd st c).i = st.i + 1 := by
  cases ha : st.active
  · simp [stepCmd_not_active c ha]
  · rw [stepCmd_char st c ha]
    split_ifs <;> simp

theorem stepCmd_nonterminal (st : QuizState) (c : Str)
    (h : isTerminal c = false) : stepCmd st c = st := by
  cases ha : st.active
  · exact stepCmd_not_active c ha
  · rw [stepCmd_char st c ha]
    simp only [isTerminal, Bool.or_eq_false_iff, decide_eq_false_iff_not] at h
    simp [h.1.1.1, h.1.1.2, h.1.2, h.2]

theorem runQuiz_inactive (st : QuizState) (cmds : List Str)
    (h : st.active = false) : runQuiz st cmds = st := by
  induction cmds with
  | nil => rfl
  | cons c rest ih => rw [runQuiz_cons, stepCmd_not_active c h]; exact ih

theorem runQuiz_total (st : QuizState) (cmds : List Str) :
    (runQuiz st cmds).total_seen = st.total_seen + countedConsumed st cmds := by
  induction cmds generalizing st with
  | nil => simp [runQuiz_nil, countedConsumed]
  | cons c rest ih =>
    rw [runQuiz_cons, ih, countedConsumed, stepCmd_total_seen]
    omega

theorem runQuiz_indices (st : QuizState) (cmds : List Str) :
    (runQuiz st cmds).indices = st.indices ++ struggledSeq st cmds := by
  induction cmds generalizing st with
  | nil => simp [runQuiz_nil, struggledSeq]
  | cons c rest ih =>
    rw [runQuiz_cons, ih, struggledSeq, stepCmd_indices]
    simp

theorem runQuiz_correct_le (st : QuizState) (cmds : List Str)
    (h : st.correct ≤ st.total_seen) :
    (runQuiz st cmds).correct ≤ (runQuiz st cmds).total_seen := by
  induction cmds generalizing st with
  | nil => exact h
  | cons c rest ih => rw [runQuiz_cons]; exact ih _ (stepCmd_correct_le st c h)

theorem runQuiz_append (st : QuizState) (l1 l2 : List Str) :
    runQuiz st (l1 ++ l2) = runQuiz (runQuiz st l1) l2 := by
  simp [runQuiz, List.foldl_append]

theorem runQuiz_nonterminal (st : QuizState) (l : List Str) :
    (∀ x ∈ l, isTerminal x = false) → runQuiz st l = st := by
  induction l with
  | nil => intro _; rfl
  | cons x xs ih =>
    intro hl
    rw [runQuiz_cons, stepCmd_nonterminal _ _ (hl x (List.mem_cons_self x xs))]
    exact ih (fun y hy => hl y (List.mem_cons_of_mem x hy))

/-! ## Claim theorems for the session engine (C1, C4, C8) -/

/-- **C1 — counterexample.**  The claim counts `q` among the terminal
commands that `total_seen` tallies, but the `q` branch of `run_quiz` sets
`quitting` without incrementing `total_seen`.  On a one-card deck whose
single consumed grading command is `q`, the AWAIT_GRADE loop consumed one
terminal command, yet `total_seen` ends at `0`. -/
theorem c1_counterexample :
    ¬ ((runQuiz (initQuiz [0]) [['q']]).total_seen
        = terminalConsumed (initQuiz [0]) [['q']]) := by decide

/-- **C1 (amended).**  After any sequence of grading commands, `total_seen`
equals the number of times the AWAIT_GRADE loop consumed a terminal command
*other than `q`* (one of `""`, `g`, `s`), and `correct ≤ total_seen` holds
at all times, i.e. after every prefix of the command stream. -/
theorem c1_total_seen_counter (st : QuizState) (cmds : List Str) (k : Nat)
    (hinv : st.correct ≤ st.total_seen) :
    (runQuiz st cmds).total_seen = st.total_seen + countedConsumed st cmds
    ∧ (runQuiz st (cmds.take k)).correct
        ≤ (runQuiz st (cmds.take k)).total_seen :=
  ⟨runQuiz_total st cmds, runQuiz_correct_le st _ hinv⟩

/-- Witness for C1 at a concrete session: deck of two cards, commands
`g`, `h`, `s`, prefix length 2. -/
theorem c1_witness :
    (runQuiz (initQuiz [0, 1]) [['g'], ['h'], ['s']]).total_seen
        = 0 + countedConsumed (initQuiz [0, 1]) [['g'], ['h'], ['s']]
    ∧ (runQuiz (initQuiz [0, 1]) ([['g'], ['h'], ['s']].take 2)).correct
        ≤ (runQuiz (initQuiz [0, 1]) ([['g'], ['h'], ['s']].take 2)).total_seen :=
  c1_total_seen_counter (initQuiz [0, 1]) [['g'], ['h'], ['s']] 2 (by decide)

/-- **C4.**  Grading `s` appends the current card's index to the literal end
of the queue snapshot at that moment, and `st.i < st.indices.length` places
that appended copy strictly after the current appearance (first conjunct).
Over any run, the final queue equals the initial queue followed by the
struggled indices in exact FIFO arrival order of the `s` grades — no
re-randomization (second conjunct).  A session that ends without `q`
(`quitting = false` and the loop guard failed) has its cursor at or past
the queue's end, so every appended copy's position was reached (third
conjunct), the cursor moving one position at a time (fourth conjunct). -/
theorem c4_requeue (st : QuizState) (cmds : List Str) (c : Str) :
    (st.active = true → normCmd c = ['s'] →
      stepCmd st c
          = { st with total_seen := st.total_seen + 1,
                      indices := st.indices ++ [st.indices.getD st.i 0],
                      i := st.i + 1 }
        ∧ st.i < st.indices.length)
    ∧ (runQuiz st cmds).indices = st.indices ++ struggledSeq st cmds
    ∧ ((runQuiz st cmds).quitting = false → (runQuiz st cmds).active = false →
        (runQuiz st cmds).indices.length ≤ (runQuiz st cmds).i)
    ∧ ((stepCmd st c).i = st.i ∨ (stepCmd st c).i = st.i + 1) := by
  refine ⟨?_, runQuiz_indices st cmds, ?_, stepCmd_i_adv st c⟩
  · intro hact hs
    refine ⟨?_, ?_⟩
    · rw [stepCmd_char st c hact]
      simp [hs]
    · simp only [QuizState.active, Bool.and_eq_true, decide_eq_true_eq] at hact
      exact hact.1
  · intro hq hact
    simp only [QuizState.active, hq, Bool.not_false, Bool.and_true,
      decide_eq_false_iff_not] at hact
    omega

/-- Witness for C4 at a one-card session graded `s` then Enter. -/
theorem c4_witness :
    (stepCmd (initQuiz [0]) ['s'] = ⟨[0, 0], 1, 0, 1, false⟩ ∧ 0 < 1)
    ∧ (runQuiz (initQuiz [0]) [['s'], []]).indices
        = [0] ++ struggledSeq (initQuiz [0]) [['s'], []] :=
  (fun h => ⟨h.1 rfl rfl, h.2.1⟩)
    (c4_requeue (initQuiz [0]) [['s'], []] ['s'])

/-- **C8.**  If `q` is the command consumed at the first AWAIT_GRADE (every
earlier grade input is non-terminal, i.e. `h` or an unrecognized token),
the session ends with `total_seen = 0` and `correct = 0` and the terminal
report omits the accuracy line; in general the summary carries an accuracy
line exactly when `total_seen > 0`. -/
theorem c8_quit_first (perm : List Nat) (pre rest : List Str) (c : Str)
    (st : QuizState)
    (hpre : ∀ x ∈ pre, isTerminal x = false) (hc : normCmd c = ['q']) :
    ((runQuiz (initQuiz perm) (pre ++ c :: rest)).total_seen = 0
     ∧ (runQuiz (initQuiz perm) (pre ++ c :: rest)).correct = 0
     ∧ (summaryLines (runQuiz (initQuiz perm) (pre ++ c :: rest))).any
         SummaryLine.isAccuracy = false)
    ∧ ((summaryLines st).any SummaryLine.isAccuracy = true
        ↔ 0 < st.total_seen) := by
  constructor
  · have h1 : runQuiz (initQuiz perm) (pre ++ c :: rest)
        = runQuiz (stepCmd (initQuiz perm) c) rest := by
      rw [runQuiz_append, runQuiz_nonterminal _ pre hpre, runQuiz_cons]
    cases ha : (initQuiz perm).active
    · rw [h1, stepCmd_not_active c ha, runQuiz_inactive _ _ ha]
      exact ⟨rfl, rfl, by simp [summaryLines, initQuiz, SummaryLine.isAccuracy]⟩
    · have hstep : stepCmd (initQuiz perm) c
          = { initQuiz perm with quitting := true, i := (initQuiz perm).i + 1 } := by
        rw [stepCmd_char _ c ha]
        simp [hc]
      have hinact : (stepCmd (initQuiz perm) c).active = false := by
        rw [hstep]; simp [QuizState.active]
      rw [h1, runQuiz_inactive _ _ hinact, hstep]
      exact ⟨rfl, rfl, by simp [summaryLines, initQuiz, SummaryLine.isAccuracy]⟩
  · cases st with
    | mk indices i correct total quitting =>
      cases total <;> simp [summaryLines, SummaryLine.isAccuracy]

/-- Witness for C8: two-card deck, inputs `h`, `q`, then one unread line. -/
theorem c8_witness :
    ((runQuiz (initQuiz [0, 1]) ([['h']] ++ ['q'] :: [[]])).total_seen = 0
     ∧ (runQuiz (initQuiz [0, 1]) ([['h']] ++ ['q'] :: [[]])).correct = 0
     ∧ (summaryLines (runQuiz (initQuiz [0, 1]) ([['h']] ++ ['q'] :: [[]]))).any
         SummaryLine.isAccuracy = false)
    ∧ ((summaryLines ⟨[0], 0, 0, 0, false⟩).any SummaryLine.isAccuracy = true
        ↔ 0 < (⟨[0], 0, 0, 0, false⟩ : QuizState).total_seen) :=
  c8_quit_first [0, 1] [['h']] [[]] ['q'] ⟨[0], 0, 0, 0, false⟩
    (by decide) (by decide)

/-! ## Lemmas about splitting and substring search (claim C9) -/

theorem splitAcc_length_pos (sep : Str) (s acc : Str) :
    1 ≤ (splitAcc sep acc s).length := by
  induction s generalizing acc with
  | nil => simp [splitAcc]
  | cons c rest ih =>
    rw [splitAcc]
    split
    · simp
    · exact ih _

/-- If some cut will trigger while scanning `s` (a position `k ≥ 1` at which
the reversed field so far starts with the reversed separator), the split has
at least two fields. -/
theorem splitAcc_length_ge_two (sep : Str) (s : Str) : ∀ acc : Str,
    (∃ k, 1 ≤ k ∧ k ≤ s.length
      ∧ sep.reverse.isPrefixOf ((s.take k).reverse ++ acc) = true) →
    2 ≤ (splitAcc sep acc s).length := by
  induction s with
  | nil =>
    intro acc h
    obtain ⟨k, h1, h2, _⟩ := h
    simp at h2
    omega
  | cons c rest ih =>
    intro acc h
    rw [splitAcc]
    split
    · simp only [List.length_cons]
      have := splitAcc_length_pos sep rest []
      omega
    · next hcut =>
      apply ih
      obtain ⟨k, h1, h2, h3⟩ := h
      match k, h1 with
      | 1, _ =>
        exfalso
        simp only [List.take_succ_cons, List.take_zero, List.reverse_cons,
          List.reverse_nil, List.nil_append, List.cons_append, List.nil_append] at h3
        exact hcut h3
      | (k' + 2), _ =>
        refine ⟨k' + 1, by omega, by simpa using h2, ?_⟩
        simp only [List.take_succ_cons, List.reverse_cons, List.append_assoc,
          List.cons_append, List.nil_append] at h3
        simpa using h3

theorem substrB_iff_occurs (sub : Str) (s : Str) :
    substrB sub s = true ↔ sub <:+: s := by
  induction s with
  | nil =>
    simp only [substrB, List.isEmpty_iff]
    constructor
    · rintro rfl; exact List.infix_refl []
    · intro h; exact List.eq_nil_of_infix_nil h
  | cons c rest ih =>
    rw [substrB, List.infix_cons_iff]
    simp [ih]

/-- A nonempty infix of `s` yields a cut position for `splitAcc` started
with an empty accumulator. -/
theorem infix_gives_cut (sub : Str) (s : Str) (hne : sub ≠ [])
    (h : sub <:+: s) :
    ∃ k, 1 ≤ k ∧ k ≤ s.length
      ∧ sub.reverse.isPrefixOf ((s.take k).reverse ++ ([] : Str)) = true := by
  obtain ⟨t, u, rfl⟩ := h
  refine ⟨t.length + sub.length, ?_, ?_, ?_⟩
  · have : sub.length ≠ 0 := fun hh => hne (List.eq_nil_of_length_eq_zero hh)
    omega
  · simp [List.length_append]
  · have htake : (t ++ sub ++ u).take (t.length + sub.length) = t ++ sub := by
      rw [← List.length_append]
      exact List.take_left _ _
    rw [htake]
    simp only [List.reverse_append, List.append_nil]
    exact List.isPrefixOf_iff_prefix.mpr (List.prefix_append _ _)

/-- Core of claim C9: a line that contains the separator splits into at
least two fields. -/
theorem substr_split_ge_two (raw : Str) (h : substrB SEPARATOR raw = true) :
    2 ≤ (splitOnL SEPARATOR raw).length := by
  rw [splitOnL]
  have hne : SEPARATOR ≠ ([] : Str) := by decide
  simp only [List.isEmpty_iff]
  rw [if_neg hne]
  exact splitAcc_length_ge_two SEPARATOR raw []
    (infix_gives_cut SEPARATOR raw hne (substrB_iff_occurs SEPARATOR raw |>.mp h))

/-! ## Branch lemmas for `processLine` -/

theorem processLine_blank (sect : Option Str) (n : Nat) (raw : Str)
    (h1 : pyStrip raw = []) :
    processLine sect n raw = (sect, none, none) := by
  simp [processLine, h1]

theorem processLine_header (sect : Option Str) (n : Nat) (raw : Str)
    (h1 : pyStrip raw ≠ []) (h2 : ['#'] <+: pyStrip raw) :
    processLine sect n raw
      = (some (pyStrip ((pyStrip raw).dropWhile (fun c => c = '#'))), none, none) := by
  simp [processLine, h1, h2]

theorem processLine_noSep (sect : Option Str) (n : Nat) (raw : Str)
    (h1 : pyStrip raw ≠ []) (h2 : ¬ (['#'] <+: pyStrip raw))
    (h3 : substrB SEPARATOR raw = false) :
    processLine sect n raw = (sect, some ⟨n, .missingSeparator⟩, none) := by
  simp [processLine, h1, h2, h3]

theorem lineParts_not_short (raw : Str) (h : substrB SEPARATOR raw = true) :
    ¬ (lineParts raw).length < 2 := by
  have := substr_split_ge_two raw h
  simp only [lineParts, List.length_map]
  omega

theorem processLine_emptyFB (sect : Option Str) (n : Nat) (raw : Str)
    (h1 : pyStrip raw ≠ []) (h2 : ¬ (['#'] <+: pyStrip raw))
    (h3 : substrB SEPARATOR raw = true)
    (h4 : (lineParts raw).getD 0 [] = [] ∨ (lineParts raw).getD 1 [] = []) :
    processLine sect n raw = (sect, some ⟨n, .emptyFrontBack⟩, none) := by
  have h4' := h4
  simp only [List.getD_eq_getElem?_getD] at h4'
  simp [processLine, h1, h2, h3, lineParts_not_short raw h3]
  exact fun hx => h4'.resolve_left hx

theorem processLine_card (sect : Option Str) (n : Nat) (raw : Str)
    (h1 : pyStrip raw ≠ []) (h2 : ¬ (['#'] <+: pyStrip raw))
    (h3 : substrB SEPARATOR raw = true)
    (h4 : ¬ ((lineParts raw).getD 0 [] = [] ∨ (lineParts raw).getD 1 [] = [])) :
    processLine sect n raw
      = (sect, none,
          some ⟨(lineParts raw).getD 0 [], (lineParts raw).getD 1 [],
                cardTopics sect (thirdField raw)⟩) := by
  have h4' := not_or.mp h4
  simp only [List.getD_eq_getElem?_getD] at h4'
  simp [processLine, h1, h2, h3, lineParts_not_short raw h3]
  exact h4'

/-- `processLine` never emits the `not enough fields` warning. -/
theorem processLine_no_short_split (sect : Option Str) (n : Nat) (raw : Str) :
    ∀ w, (processLine sect n raw).2.1 = some w → w.kind ≠ WarnKind.notEnoughFields := by
  intro w hw
  by_cases h1 : pyStrip raw = []
  · rw [processLine_blank sect n raw h1] at hw
    exact absurd hw (by simp)
  · by_cases h2 : ['#'] <+: pyStrip raw
    · rw [processLine_header sect n raw h1 h2] at hw
      exact absurd hw (by simp)
    · by_cases h3 : substrB SEPARATOR raw = true
      · by_cases h4 : (lineParts raw).getD 0 [] = [] ∨ (lineParts raw).getD 1 [] = []
        · rw [processLine_emptyFB sect n raw h1 h2 h3 h4] at hw
          simp only [Option.some.injEq] at hw
          subst hw
          simp
        · rw [processLine_card sect n raw h1 h2 h3 h4] at hw
          exact absurd hw (by simp)
      · have h3' : substrB SEPARATOR raw = false := by
          revert h3; cases substrB SEPARATOR raw <;> simp
        rw [processLine_noSep sect n raw h1 h2 h3'] at hw
        simp only [Option.some.injEq] at hw
        subst hw
        simp

/-- The loader never prints the `not enough fields` warning. -/
theorem loadLoop_no_short_split (lines : List Str) :
    ∀ (sect : Option Str) (n : Nat),
    ∀ w ∈ (loadLoop sect n lines).1, w.kind ≠ WarnKind.notEnoughFields := by
  induction lines with
  | nil => intro sect n w hw; simp [loadLoop] at hw
  | cons raw rest ih =>
    intro sect n w hw
    rw [loadLoop] at hw
    simp only [List.mem_append] at hw
    rcases hw with hw | hw
    · rcases Option.mem_toList.mp hw with h
      exact processLine_no_short_split sect n raw w (Option.mem_def.mp h)
    · exact ih _ _ w hw

/-- **C9.**  The `fewer than 2 fields` branch of the parser is dead code:
any line that passes the separator-presence check splits into at least two
fields, and consequently no run of the loader over any deck ever emits the
`not enough fields` warning. -/
theorem c9_short_fields_unreachable (raw : Str) (lines : List Str)
    (h : substrB SEPARATOR raw = true) :
    2 ≤ (splitOnL SEPARATOR raw).length
    ∧ ∀ (sect : Option Str) (n : Nat),
        ∀ w ∈ (loadLoop sect n lines).1, w.kind ≠ WarnKind.notEnoughFields :=
  ⟨substr_split_ge_two raw h, loadLoop_no_short_split lines⟩

/-- Witness for C9 at the line `a:::b`. -/
theorem c9_witness :
    2 ≤ (splitOnL SEPARATOR (chars "a:::b")).length :=
  (c9_short_fields_unreachable (chars "a:::b") [] (by decide)).1

/-! ## Per-line classification and the loader counts (claim C2) -/

theorem prefixOf_eq_false {l s : Str} (h : ¬ l <+: s) : l.isPrefixOf s = false := by
  rw [← Bool.not_eq_true, List.isPrefixOf_iff_prefix]
  exact h

theorem prefixOf_eq_true {l s : Str} (h : l <+: s) : l.isPrefixOf s = true :=
  List.isPrefixOf_iff_prefix.mpr h

theorem specValidLine_iff (raw : Str) :
    specValidLine raw = true ↔
      (¬ pyStrip raw = [] ∧ ['#'].isPrefixOf (pyStrip raw) = false
       ∧ substrB SEPARATOR raw = true
       ∧ ¬ (lineParts raw).getD 0 [] = [] ∧ ¬ (lineParts raw).getD 1 [] = []) := by
  simp [specValidLine, List.getD_eq_getElem?_getD]
  try tauto

theorem specMalformedLine_iff (raw : Str) :
    specMalformedLine raw = true ↔
      (¬ pyStrip raw = [] ∧ ['#'].isPrefixOf (pyStrip raw) = false
       ∧ specValidLine raw = false) := by
  simp [specMalformedLine]
  try tauto

theorem processLine_card_isSome (sect : Option Str) (n : Nat) (raw : Str) :
    (processLine sect n raw).2.2.isSome = specValidLine raw := by
  by_cases h1 : pyStrip raw = []
  · have hv : specValidLine raw = false := by
      rw [← Bool.not_eq_true, specValidLine_iff]
      tauto
    rw [processLine_blank sect n raw h1, hv]
    rfl
  · by_cases h2 : ['#'] <+: pyStrip raw
    · have hv : specValidLine raw = false := by
        rw [← Bool.not_eq_true, specValidLine_iff]
        simp [prefixOf_eq_true h2]
      rw [processLine_header sect n raw h1 h2, hv]
      rfl
    · by_cases h3 : substrB SEPARATOR raw = true
      · by_cases h4 : (lineParts raw).getD 0 [] = [] ∨ (lineParts raw).getD 1 [] = []
        · have hv : specValidLine raw = false := by
            rw [← Bool.not_eq_true, specValidLine_iff]
            tauto
          rw [processLine_emptyFB sect n raw h1 h2 h3 h4, hv]
          rfl
        · have hv : specValidLine raw = true :=
            specValidLine_iff raw |>.mpr
              ⟨h1, prefixOf_eq_false h2, h3, (not_or.mp h4).1, (not_or.mp h4).2⟩
          rw [processLine_card sect n raw h1 h2 h3 h4, hv]
          rfl
      · have h3' : substrB SEPARATOR raw = false := by
          revert h3; cases substrB SEPARATOR raw <;> simp
        have hv : specValidLine raw = false := by
          rw [← Bool.not_eq_true, specValidLine_iff]
          simp [h3']
        rw [processLine_noSep sect n raw h1 h2 h3', hv]
        rfl

theorem processLine_warn_map (sect : Option Str) (n : Nat) (raw : Str) :
    (processLine sect n raw).2.1.toList.map Warning.lineNo
      = if specMalformedLine raw = true then [n] else [] := by
  by_cases h1 : pyStrip raw = []
  · have hm : specMalformedLine raw = false := by
      rw [← Bool.not_eq_true, specMalformedLine_iff]
      tauto
    rw [processLine_blank sect n raw h1]
    simp [hm]
  · by_cases h2 : ['#'] <+: pyStrip raw
    · have hm : specMalformedLine raw = false := by
        rw [← Bool.not_eq_true, specMalformedLine_iff]
        simp [prefixOf_eq_true h2]
      rw [processLine_header sect n raw h1 h2]
      simp [hm]
    · by_cases h3 : substrB SEPARATOR raw = true
      · by_cases h4 : (lineParts raw).getD 0 [] = [] ∨ (lineParts raw).getD 1 [] = []
        · have hv : specValidLine raw = false := by
            rw [← Bool.not_eq_true, specValidLine_iff]
            tauto
          have hm : specMalformedLine raw = true :=
            specMalformedLine_iff raw |>.mpr ⟨h1, prefixOf_eq_false h2, hv⟩
          rw [processLine_emptyFB sect n raw h1 h2 h3 h4]
          simp [hm]
        · have hv : specValidLine raw = true :=
            specValidLine_iff raw |>.mpr
              ⟨h1, prefixOf_eq_false h2, h3, (not_or.mp h4).1, (not_or.mp h4).2⟩
          have hm : specMalformedLine raw = false := by
            rw [← Bool.not_eq_true, specMalformedLine_iff]
            simp [hv]
          rw [processLine_card sect n raw h1 h2 h3 h4]
          simp [hm]
      · have h3' : substrB SEPARATOR raw = false := by
          revert h3; cases substrB SEPARATOR raw <;> simp
        have hv : specValidLine raw = false := by
          rw [← Bool.not_eq_true, specValidLine_iff]
          simp [h3']
        have hm : specMalformedLine raw = true :=
          specMalformedLine_iff raw |>.mpr ⟨h1, prefixOf_eq_false h2, hv⟩
        rw [processLine_noSep sect n raw h1 h2 h3']
        simp [hm]

theorem loadLoop_c2 (lines : List Str) : ∀ (sect : Option Str) (n : Nat),
    (loadLoop sect n lines).2.length = (lines.filter specValidLine).length
    ∧ (loadLoop sect n lines).1.map Warning.lineNo = malformedIdxFrom n lines := by
  induction lines with
  | nil => intro sect n; exact ⟨rfl, rfl⟩
  | cons raw rest ih =>
    intro sect n
    have hcard := processLine_card_isSome sect n raw
    have hwarn := processLine_warn_map sect n raw
    simp only [loadLoop]
    constructor
    · rw [List.length_append, (ih _ (n + 1)).1, List.filter_cons]
      cases ho : (processLine sect n raw).2.2 with
      | none =>
        rw [ho] at hcard
        simp [← hcard]
      | some c =>
        rw [ho] at hcard
        simp [← hcard]
        omega
    · rw [List.map_append, (ih _ (n + 1)).2, malformedIdxFrom, hwarn]

/-- **C2.**  For every deck text, the parse loop of `load_cards` returns
exactly one card per syntactically valid line (not blank, not a header,
separator present, nonempty trimmed front and back) and exactly one warning
per malformed line (neither blank, header nor valid), the warning carrying
that line's 1-based number; warnings never abort the load — the loop is a
total function that always continues to the next line.  (When at least one
card results, `load_cards` returns this very parse result, per C7.) -/
theorem c2_valid_counts (lines : List Str) :
    (loadLoop none 1 lines).2.length = (lines.filter specValidLine).length
    ∧ (loadLoop none 1 lines).1.map Warning.lineNo = malformedIdxFrom 1 lines :=
  loadLoop_c2 lines none 1

/-! ## Topics of an emitted card (claim C3) -/

theorem sectPart_eq (sect : Option Str) :
    (if sectionTruthy sect then [pyLower (sect.getD [])] else [])
      = (match sect with
         | some s => if !s.isEmpty then [pyLower s] else []
         | none => ([] : List Str)) := by
  cases sect <;> simp [sectionTruthy]

theorem dedup_guard (l : List Str) :
    (if l.isEmpty then l else dedupGo [] [] l) = dedupGo [] [] l := by
  cases l <;> simp [dedupGo]

theorem cardTopics_eq_spec (sect : Option Str) (ts : Str) :
    cardTopics sect ts = specCardTopics sect ts := by
  unfold cardTopics specCardTopics
  rw [← sectPart_eq]
  by_cases hts : ts = []
  · subst hts
    have hE : commaEntries [] = [] := rfl
    cases hsec : sectionTruthy sect <;>
      simp [hsec, hE, dedupGo, dedup_guard]
  · have hts' : ts.isEmpty = false := by
      cases ts
      · exact absurd rfl hts
      · rfl
    cases hsec : sectionTruthy sect <;> cases hcE : commaEntries ts <;>
      simp [hsec, hcE, hts', dedupGo, dedup_guard]

/-- **C3.**  Every card emitted by the loader (each card of `load_cards`
arises from one line through `processLine`, as `loadLoop` shows) carries as
topics exactly the claim's computation: the deduplicated,
first-occurrence-order concatenation of the lowercased active section (when
one is active) and the trimmed, lowercased comma entries of the card's
third field, empty entries skipped. -/
theorem c3_topics_spec (sect : Option Str) (n : Nat) (raw : Str) (card : Card)
    (h : (processLine sect n raw).2.2 = some card) :
    card.topics = specCardTopics sect (thirdField raw) := by
  by_cases h1 : pyStrip raw = []
  · rw [processLine_blank sect n raw h1] at h
    exact absurd h (by simp)
  · by_cases h2 : ['#'] <+: pyStrip raw
    · rw [processLine_header sect n raw h1 h2] at h
      exact absurd h (by simp)
    · by_cases h3 : substrB SEPARATOR raw = true
      · by_cases h4 : (lineParts raw).getD 0 [] = [] ∨ (lineParts raw).getD 1 [] = []
        · rw [processLine_emptyFB sect n raw h1 h2 h3 h4] at h
          exact absurd h (by simp)
        · rw [processLine_card sect n raw h1 h2 h3 h4] at h
          simp only [Option.some.injEq] at h
          subst h
          exact cardTopics_eq_spec sect (thirdField raw)
      · have h3' : substrB SEPARATOR raw = false := by
          revert h3; cases substrB SEPARATOR raw <;> simp
        rw [processLine_noSep sect n raw h1 h2 h3'] at h
        exact absurd h (by simp)

/-- Witness for C3 at the line `a ::: b ::: t, x` under active section `x`. -/
theorem c3_witness :
    (⟨chars "a", chars "b", [chars "x", chars "t"]⟩ : Card).topics
      = specCardTopics (some (chars "x")) (thirdField (chars "a ::: b ::: t, x")) :=
  c3_topics_spec (some (chars "x")) 1 (chars "a ::: b ::: t, x")
    ⟨chars "a", chars "b", [chars "x", chars "t"]⟩ (by decide)

/-! ## Empty-string sections (claim C10) -/

theorem cardTopics_empty_section (ts : Str) :
    cardTopics (some []) ts = cardTopics none ts := by
  simp [cardTopics, sectionTruthy]

theorem processLine_output_empty_section (n : Nat) (raw : Str) :
    (processLine (some []) n raw).2 = (processLine none n raw).2
    ∧ ((processLine (some []) n raw).1 = some [] ∧ (processLine none n raw).1 = none
       ∨ (processLine (some []) n raw).1 = (processLine none n raw).1) := by
  by_cases h1 : pyStrip raw = []
  · rw [processLine_blank _ n raw h1, processLine_blank _ n raw h1]
    exact ⟨rfl, Or.inl ⟨rfl, rfl⟩⟩
  · by_cases h2 : ['#'] <+: pyStrip raw
    · rw [processLine_header _ n raw h1 h2, processLine_header _ n raw h1 h2]
      exact ⟨rfl, Or.inr rfl⟩
    · by_cases h3 : substrB SEPARATOR raw = true
      · by_cases h4 : (lineParts raw).getD 0 [] = [] ∨ (lineParts raw).getD 1 [] = []
        · rw [processLine_emptyFB _ n raw h1 h2 h3 h4,
            processLine_emptyFB _ n raw h1 h2 h3 h4]
          exact ⟨rfl, Or.inl ⟨rfl, rfl⟩⟩
        · rw [processLine_card _ n raw h1 h2 h3 h4,
            processLine_card _ n raw h1 h2 h3 h4]
          refine ⟨?_, Or.inl ⟨rfl, rfl⟩⟩
          simp [cardTopics_empty_section]
      · have h3' : substrB SEPARATOR raw = false := by
          revert h3; cases substrB SEPARATOR raw <;> simp
        rw [processLine_noSep _ n raw h1 h2 h3', processLine_noSep _ n raw h1 h2 h3']
        exact ⟨rfl, Or.inl ⟨rfl, rfl⟩⟩

theorem loadLoop_empty_section (lines : List Str) : ∀ m : Nat,
    loadLoop (some []) m lines = loadLoop none m lines := by
  induction lines with
  | nil => intro m; rfl
  | cons raw rest ih =>
    intro m
    obtain ⟨h2, hsec⟩ := processLine_output_empty_section m raw
    simp only [loadLoop]
    rcases hsec with ⟨ha, hb⟩ | hab
    · rw [h2, ha, hb, ih]
    · rw [h2, hab]

/-- **C10 (amended).**  A header line whose text after the *leading* run of
`#` characters strips to nothing sets `current_section` to the empty
string, and parsing under the empty-string section is indistinguishable
from parsing under no section at all: every subsequent card (until a
header installs a nonempty section, headers updating the section the same
way in both runs) receives only its explicit field-2 topics.  The
amendment: the claim's "consisting only of `#` characters and whitespace"
must be restricted to lines whose `#` characters are all leading, because
`lstrip("#")` removes only the leading run — see the counterexample. -/
theorem c10_empty_header (sect : Option Str) (n : Nat) (raw : Str)
    (h1 : pyStrip raw ≠ []) (h2 : ['#'] <+: pyStrip raw)
    (h3 : pyStrip ((pyStrip raw).dropWhile (fun c => c = '#')) = []) :
    (processLine sect n raw).1 = some []
    ∧ ∀ (lines : List Str) (m : Nat),
        loadLoop (some []) m lines = loadLoop none m lines := by
  constructor
  · rw [processLine_header sect n raw h1 h2]
    simp [h3]
  · intro lines m
    exact loadLoop_empty_section lines m

/-- Witness for C10 (amended) at the header `" ## "`. -/
theorem c10_witness :
    (processLine none 1 (chars " ## ")).1 = some []
    ∧ loadLoop (some []) 1 [chars "x:::y"] = loadLoop none 1 [chars "x:::y"] :=
  (fun h => ⟨h.1, h.2 [chars "x:::y"] 1⟩)
    (c10_empty_header none 1 (chars " ## ") (by decide) (by decide) (by decide))

/-- **C10 — counterexample.**  The header line `"# #"` consists only of `#`
characters and whitespace, yet it sets the section to `"#"` (truthy), and
the following card — which has no explicit field-2 topics — receives the
section-derived topic `"#"` instead of no topics: `lstrip("#")` removes
only the *leading* run of `#`. -/
theorem c10_counterexample :
    (chars "# #").all (fun c => c = '#' || pySpace c) = true
    ∧ (loadLoop none 1 [chars "# #", chars "x:::y"]).2.map Card.topics
        = [[chars "#"]]
    ∧ [[chars "#"]] ≠ [([] : List Str)] := by decide

/-! ## Failure modes of `load_cards` (claim C7) -/

/-- **C7.**  `load_cards` fails with `DeckNotFound` exactly when the path
does not exist; it fails with `EmptyDeck` exactly when the path exists but
parsing yields zero cards; these are its only failure modes, and in every
other case it returns the (nonempty) parse result. -/
theorem c7_failure_modes (pathExists : Bool) (lines : List Str) :
    (load_cards pathExists lines = .error .deckNotFound ↔ pathExists = false)
    ∧ (load_cards pathExists lines = .error .emptyDeck
        ↔ pathExists = true ∧ (loadLoop none 1 lines).2 = [])
    ∧ (∀ e, load_cards pathExists lines = .error e →
        e = .deckNotFound ∨ e = .emptyDeck)
    ∧ (pathExists = true → (loadLoop none 1 lines).2 ≠ [] →
        load_cards pathExists lines = .ok (loadLoop none 1 lines)) := by
  cases pathExists
  · refine ⟨by simp [load_cards], by simp [load_cards], ?_, by simp⟩
    intro e he
    simp only [load_cards, Bool.not_false, if_true, Except.error.injEq] at he
    exact Or.inl he.symm
  · by_cases hc : (loadLoop none 1 lines).2 = []
    · refine ⟨by simp [load_cards, hc], by simp [load_cards, hc], ?_, ?_⟩
      · intro e he
        simp [load_cards, hc] at he
        exact Or.inr he.symm
      · intro _ hne
        exact absurd hc hne
    · refine ⟨by simp [load_cards, hc], by simp [load_cards, hc], ?_, ?_⟩
      · intro e he
        exact absurd he (by simp [load_cards, hc])
      · intro _ _
        simp [load_cards, hc]

/-- Witness for C7: a missing file. -/
theorem c7_witness :
    load_cards false [chars "a:::b"] = .error .deckNotFound :=
  (c7_failure_modes false [chars "a:::b"]).1.mpr rfl

/-! ## The topic filter (claims C5 and C6) -/

/-- The normalized topic request `choose_topic_subset` computes from the
user's input: the comma entries of the stripped input line. -/
def normalizedRequest (rawInput : Str) : List Str := commaEntries (pyStrip rawInput)

/-- **C5.**  The topic filter is the identity on the card list in both
claimed cases: a deck in which no card has any topic (whatever the
request), and an empty (all-whitespace) request. -/
theorem c5_filter_identity (cards : List Card) (rawInput : Str)
    (h : (∀ c ∈ cards, c.topics = []) ∨ pyStrip rawInput = []) :
    (choose_topic_subset cards rawInput).2 = cards := by
  unfold choose_topic_subset
  rcases h with h | h
  · have hflat : (cards.map Card.topics).flatten = [] := by
      rw [List.flatten_eq_nil_iff]
      intro l hl
      simp only [List.mem_map] at hl
      obtain ⟨c, hc, rfl⟩ := hl
      exact h c hc
    rw [hflat]
    simp [dedupGo]
  · by_cases htop : dedupGo [] [] ((cards.map Card.topics).flatten) = []
    · simp [htop]
    · simp [htop, h]

/-- Witness for C5: a deck with one tagged card and a whitespace request. -/
theorem c5_witness :
    (choose_topic_subset [⟨chars "a", chars "b", [chars "t"]⟩] (chars "  ")).2
      = [⟨chars "a", chars "b", [chars "t"]⟩] :=
  c5_filter_identity [⟨chars "a", chars "b", [chars "t"]⟩] (chars "  ")
    (Or.inr (by decide))

/-- **C6.**  A nonempty normalized request that matches no card makes the
filter return the original full input list, never an empty one, and the
fallback is announced by a printed notice (`No cards matched those topics.
Using all cards instead.` — or, when the deck carries no topics at all and
the request is never even read, `No topics found in deck; using all
cards.`), not performed silently. -/
theorem c6_no_match_fallback (cards : List Card) (rawInput : Str)
    (hne : normalizedRequest rawInput ≠ [])
    (hnom : ∀ c ∈ cards, ∀ t ∈ c.topics, t ∉ normalizedRequest rawInput) :
    (choose_topic_subset cards rawInput).2 = cards
    ∧ (Notice.noCardsMatched ∈ (choose_topic_subset cards rawInput).1
       ∨ Notice.noTopicsFound ∈ (choose_topic_subset cards rawInput).1) := by
  unfold choose_topic_subset
  by_cases htop : dedupGo [] [] ((cards.map Card.topics).flatten) = []
  · simp [htop]
  · have hraw : ¬ pyStrip rawInput = [] := by
      intro hr
      apply hne
      unfold normalizedRequest
      rw [hr]
      rfl
    have hcond : ∀ a ∈ cards, ¬a.topics = []
        → ∀ x ∈ a.topics, x ∉ commaEntries (pyStrip rawInput) := by
      intro a ha _ x hx
      exact hnom a ha x hx
    simp [htop, hraw]
    rw [if_pos hcond]
    exact ⟨rfl, Or.inl (by simp)⟩

/-- Witness for C6: a one-card deck and the unmatched request `z`. -/
theorem c6_witness :
    (choose_topic_subset [⟨chars "a", chars "b", [chars "t"]⟩] (chars "z")).2
      = [⟨chars "a", chars "b", [chars "t"]⟩]
    ∧ (Notice.noCardsMatched
        ∈ (choose_topic_subset [⟨chars "a", chars "b", [chars "t"]⟩] (chars "z")).1
       ∨ Notice.noTopicsFound
        ∈ (choose_topic_subset [⟨chars "a", chars "b", [chars "t"]⟩] (chars "z")).1) :=
  c6_no_match_fallback [⟨chars "a", chars "b", [chars "t"]⟩] (chars "z")
    (by decide) (by decide)

end PandasFlashcards
